import Mathlib

/-!
Verification development for the angstrom matching/consensus node.

The definitions below are a shallow embedding of the Rust sources:
  crates/matching-engine/src/matcher/volume.rs   (volume-fill matcher)
  crates/consensus/src/rounds/bid_aggregation.rs (round state machine)
  crates/types/src/consensus/commit.rs           (commit hashing / signing)
  crates/angstrom-net/src/pool_manager.rs        (order-pool manager)
Machine integers are modelled as Nat, with explicit wrapping where the
source computes in U256 space.  External components the sources only call
into (order selection, AMM curve math, BLS aggregation, the LRU cache
implementation) are modelled as explicit parameters or, where noted,
from the specification text.
-/

namespace Angstrom

/-! ## Matching engine: data model (volume.rs and angstrom_types) -/

/-- Modelled from the spec: OrderFillState lives in angstrom_types::orders
(not among the sources).  Per spec section 3 an order is unfilled, partially
filled with a remaining amount, or completely filled; partial fills
accumulate. -/
inductive OrderFillState where
  | Unfilled
  | PartialFill (q : Nat)
  | CompleteFill
  deriving Repr, DecidableEq

/-- Modelled from the spec: cumulative partial-fill update used as
outcome.partial_fill(matched) in volume.rs. -/
def OrderFillState.partialFill : OrderFillState → Nat → OrderFillState
  | .Unfilled, q => .PartialFill q
  | .PartialFill a, q => .PartialFill (a + q)
  | .CompleteFill, _ => .CompleteFill

/-- Modelled from the spec: Debt is a value type with kind, amount and price
(spec section 9, Debt tracking); the matcher only moves it via set_price and
partial_fill. -/
structure Debt where
  amount : Nat
  price : Nat
  deriving Repr, DecidableEq

def Debt.setPrice (d : Debt) (p : Nat) : Debt := { d with price := p }

def Debt.partialFill (d : Debt) (q : Nat) : Debt := { d with amount := d.amount - q }

/-- Modelled from the spec: NetAmmOrder (angstrom_types::orders) accumulates
the net AMM quantities; volume.rs only calls NetAmmOrder::new(is_bid) and
add_quantity(d_t0, d_t1). -/
structure NetAmmOrder where
  isBid : Bool
  t0 : Nat
  t1 : Nat
  deriving Repr, DecidableEq

def NetAmmOrder.new (isBid : Bool) : NetAmmOrder := ⟨isBid, 0, 0⟩

def NetAmmOrder.addQuantity (o : NetAmmOrder) (d0 d1 : Nat) : NetAmmOrder :=
  { o with t0 := o.t0 + d0, t1 := o.t1 + d1 }

/-- Modelled from the spec: the Solution accumulator of the matcher
(matcher/mod.rs is not among the sources); the fields are exactly those
volume.rs reads and writes: price, total_volume, partial_volume,
amm_volume, amm_final_price. -/
structure Solution where
  price : Option Nat
  totalVolume : Nat
  partialVolume : Nat × Nat
  ammVolume : Nat
  ammFinalPrice : Option Nat
  deriving Repr, DecidableEq

def Solution.empty : Solution := ⟨none, 0, (0, 0), 0, none⟩

/-- The view of an OrderContainer (book/order.rs) that volume.rs consumes:
capability flags and the price/quantity accessors.  The quantity functions
take the opposing limit price, as in the source. -/
structure OrderData where
  isAmm : Bool
  isComposite : Bool
  isDebt : Bool
  isPartialSafe : Bool
  price : Nat
  quantity : Nat → Nat
  negQuantity : Nat → Nat
  ammIntersect : Debt → Option Nat

/-- Direction of an AMM move (angstrom_types::matching::uniswap::Direction). -/
inductive Direction where
  | BuyingT0
  | SellingT0
  deriving Repr, DecidableEq

/-- End reasons of a matcher run (volume.rs lines 20-29). -/
inductive VolumeFillMatchEndReason where
  | NoMoreBids
  | NoMoreAsks
  | BothSidesAMM
  | NoLongerCross
  | ZeroQuantity
  | ErrorEncountered
  deriving Repr, DecidableEq

/-- The non-recursive fields of VolumeFillMatcher (volume.rs lines 32-44).
The AMM pool price is abstracted to its Ray value. -/
structure MatcherCore where
  bidIdx : Nat
  bidOutcomes : List OrderFillState
  askIdx : Nat
  askOutcomes : List OrderFillState
  debt : Option Debt
  ammPrice : Option Nat
  ammOutcome : Option NetAmmOrder
  results : Solution
  deriving Repr, DecidableEq

/-- VolumeFillMatcher, with its recursive checkpoint slot
(checkpoint: Option of the matcher itself, volume.rs line 43). -/
inductive Matcher where
  | mk (core : MatcherCore) (checkpoint : Option Matcher)

def Matcher.core : Matcher → MatcherCore
  | .mk c _ => c

def Matcher.checkpoint : Matcher → Option Matcher
  | .mk _ cp => cp

/-- save_checkpoint (volume.rs lines 73-87): store a copy of every field of
the current state, with the copy holding no checkpoint of its own. -/
def saveCheckpoint (c : MatcherCore) : Matcher :=
  .mk c (some (.mk c none))

/-- VolumeFillMatcher::new (volume.rs lines 47-66): zeroed state over the
book sizes, then an initial checkpoint. -/
def Matcher.new (numBids numAsks : Nat) (ammPrice : Option Nat) : Matcher :=
  saveCheckpoint
    { bidIdx := 0
      bidOutcomes := List.replicate numBids .Unfilled
      askIdx := 0
      askOutcomes := List.replicate numAsks .Unfilled
      debt := none
      ammPrice := ammPrice
      ammOutcome := none
      results := Solution.empty }

/-- restore_checkpoint (volume.rs lines 97-108): take the checkpoint and
copy back exactly bid_idx, bid_outcomes, ask_idx, ask_outcomes, amm_price. -/
def Matcher.restoreCheckpoint : Matcher → Bool × Matcher
  | .mk c none => (false, .mk c none)
  | .mk c (some cp) =>
      (true,
        .mk
          { c with
            bidIdx := cp.core.bidIdx
            bidOutcomes := cp.core.bidOutcomes
            askIdx := cp.core.askIdx
            askOutcomes := cp.core.askOutcomes
            ammPrice := cp.core.ammPrice }
          none)

/-- Abstraction of VolumeFillMatcher::next_order (volume.rs lines 517-620):
given the side, the current index, the debt, the AMM price and the outcome
vector, either no order is available or an order is chosen together with the
possibly advanced index (the source advances the index cell exactly when a
book order is chosen). -/
def NextOrderFn : Type :=
  Bool → Nat → Option Debt → Option Nat → List OrderFillState →
    Option (OrderData × Nat)

/-- Abstraction of the fallible AMM curve step inside fill_amm
(amm.d_t0 and PoolPriceVec::from_price_range, volume.rs lines 117-118):
from the current price, a quantity and a direction it produces the new
price and the d_t0/d_t1 quantities, or fails. -/
def FillAmmFn : Type :=
  Nat → Nat → Direction → Option (Nat × Nat × Nat)

/-- fill_amm (volume.rs lines 110-128) applied to the matcher fields it
mutates.  On failure of the curve step nothing is mutated, exactly as in
the source where both fallible calls precede the first write. -/
def fillAmmCore (fa : FillAmmFn) (amm quantity : Nat) (dir : Direction)
    (c : MatcherCore) : Option MatcherCore :=
  (fa amm quantity dir).map fun r =>
    let newAmm := r.1
    let dT0 := r.2.1
    let dT1 := r.2.2
    let isBid := match dir with | .BuyingT0 => true | .SellingT0 => false
    { c with
      ammPrice := some newAmm
      results :=
        { c.results with
          ammVolume := c.results.ammVolume + quantity
          ammFinalPrice := some newAmm }
      ammOutcome := some ((c.ammOutcome.getD (NetAmmOrder.new isBid)).addQuantity dT0 dT1) }

/-- AMM move of the zero-ask-with-debt branch (volume.rs lines 228-242):
performed only when the current or next ask includes the AMM and an AMM
price is present; the curve step may fail. -/
def debtAmmStep (fa : FillAmmFn) (useAmm : Bool) (matched : Nat)
    (c3 : MatcherCore) : Option MatcherCore :=
  if useAmm then
    match c3.ammPrice with
    | some amm => fillAmmCore fa amm matched .SellingT0 c3
    | none => some c3
  else some c3

/-- Outcome application of the zero-ask-with-debt branch (volume.rs lines
244-283): compare the next ask quantity to the debt quantity and update
price, ask outcome and debt, checkpointing in the Equal and Less cases. -/
def debtOutcome (nextAsk : OrderData) (nextAskQ curAskQ matched : Nat)
    (c4 : MatcherCore) (cp : Option Matcher) :
    Option VolumeFillMatchEndReason × Matcher :=
  match compare nextAskQ curAskQ with
  | .eq =>
    let c5 :=
      { c4 with
        results := { c4.results with price := some nextAsk.price }
        askOutcomes :=
          if !nextAsk.isAmm && !nextAsk.isComposite then
            c4.askOutcomes.set c4.askIdx .CompleteFill
          else c4.askOutcomes
        debt := c4.debt.map fun d => d.setPrice nextAsk.price }
    (none, saveCheckpoint c5)
  | .gt =>
    let c5 :=
      { c4 with
        results := { c4.results with price := some nextAsk.price }
        debt := c4.debt.map fun d => d.setPrice nextAsk.price
        askOutcomes :=
          if !nextAsk.isAmm && !nextAsk.isComposite then
            c4.askOutcomes.set c4.askIdx
              ((c4.askOutcomes.getD c4.askIdx .Unfilled).partialFill matched)
          else c4.askOutcomes }
    (none, .mk c5 cp)
  | .lt =>
    let c5 :=
      { c4 with
        debt := c4.debt.map fun d => d.partialFill matched
        askOutcomes :=
          if !nextAsk.isAmm && !nextAsk.isComposite then
            c4.askOutcomes.set c4.askIdx .CompleteFill
          else c4.askOutcomes }
    (none, saveCheckpoint c5)

/-- Zero-ask-with-debt branch of single_match (volume.rs lines 181-286):
entered when the chosen ask has zero quantity and carries the debt.  It is
given the state after both selections, re-runs ask selection without the
debt, and matches the debt against the next ask. -/
def debtBranch (no : NextOrderFn) (fa : FillAmmFn) (bid ask : OrderData)
    (c2 : MatcherCore) (cp : Option Matcher) :
    Option VolumeFillMatchEndReason × Matcher :=
  match no false c2.askIdx none c2.ammPrice c2.askOutcomes with
  | none => (some .NoMoreAsks, .mk c2 cp)
  | some (nextAsk, askIdx2) =>
    let c3 := { c2 with askIdx := askIdx2 }
    if bid.price < nextAsk.price then (some .NoLongerCross, .mk c3 cp)
    else
      let normalNextQ := nextAsk.quantity bid.price
      let nextAskQ :=
        if nextAsk.isAmm then
          (c3.debt.bind fun d =>
            (nextAsk.ammIntersect d).map fun i => min i normalNextQ).getD normalNextQ
        else normalNextQ
      let curAskQ := ask.negQuantity bid.price
      if curAskQ == 0 then (some .ErrorEncountered, .mk c3 cp)
      else
        let matched := min nextAskQ curAskQ
        match debtAmmStep fa (ask.isAmm || nextAsk.isAmm) matched c3 with
        | none => (some .ErrorEncountered, .mk c3 cp)
        | some c4 => debtOutcome nextAsk nextAskQ curAskQ matched c4 cp

/-- AMM move of the fill stage (volume.rs lines 305-319): buy when the bid
side alone is AMM, sell when the ask side alone is AMM, skip otherwise. -/
def fillAmmStep (fa : FillAmmFn) (bidAmm askAmm : Bool) (matched : Nat)
    (cB : MatcherCore) : Option MatcherCore :=
  match cB.ammPrice with
  | some amm =>
    match bidAmm, askAmm with
    | true, false => fillAmmCore fa amm matched .BuyingT0 cB
    | false, true => fillAmmCore fa amm matched .SellingT0 cB
    | _, _ => some cB
  | none => some cB

/-- Outcome application of the fill stage (volume.rs lines 321-377).  The
bid-side complete-fill mark in the Equal case tests ask.is_composite,
exactly as source line 331 does.  The midpoint divides the wrapped U256
sum of the two prices by two. -/
def fillOutcome (bid ask : OrderData) (bidQ askQ matched : Nat)
    (cC : MatcherCore) (cp : Option Matcher) :
    Option VolumeFillMatchEndReason × Matcher :=
  match compare bidQ askQ with
  | .eq =>
    let c5 :=
      { cC with
        results :=
          { cC.results with
            price := some ((ask.price + bid.price) % 2 ^ 256 / 2) }
        askOutcomes :=
          if !ask.isAmm && !ask.isComposite then
            cC.askOutcomes.set cC.askIdx .CompleteFill
          else cC.askOutcomes }
    let c6 :=
      { c5 with
        bidOutcomes :=
          if !bid.isAmm && !ask.isComposite then
            c5.bidOutcomes.set c5.bidIdx .CompleteFill
          else c5.bidOutcomes }
    (none, saveCheckpoint c6)
  | .gt =>
    let c5 :=
      { cC with
        results := { cC.results with price := some bid.price }
        askOutcomes :=
          if !ask.isAmm && !ask.isComposite then
            cC.askOutcomes.set cC.askIdx .CompleteFill
          else cC.askOutcomes }
    if !bid.isAmm && !bid.isComposite then
      let c6 :=
        { c5 with
          bidOutcomes :=
            c5.bidOutcomes.set c5.bidIdx
              ((c5.bidOutcomes.getD c5.bidIdx .Unfilled).partialFill matched) }
      if bid.isPartialSafe then (none, saveCheckpoint c6) else (none, .mk c6 cp)
    else (none, saveCheckpoint c5)
  | .lt =>
    let c5 :=
      { cC with
        results := { cC.results with price := some ask.price }
        bidOutcomes :=
          if !bid.isAmm && !bid.isComposite then
            cC.bidOutcomes.set cC.bidIdx .CompleteFill
          else cC.bidOutcomes }
    if !ask.isAmm && !ask.isComposite then
      let c6 :=
        { c5 with
          askOutcomes :=
            c5.askOutcomes.set c5.askIdx
              ((c5.askOutcomes.getD c5.askIdx .Unfilled).partialFill matched) }
      if ask.isPartialSafe then (none, saveCheckpoint c6) else (none, .mk c6 cp)
    else (none, saveCheckpoint c5)

/-- Fill stage of single_match (volume.rs lines 288-379): break on a zero
quantity, record the matched volume and the partial volumes, move the AMM
when exactly one side is AMM, then apply the comparison outcome. -/
def fillStage (fa : FillAmmFn) (bid ask : OrderData)
    (c2 : MatcherCore) (cp : Option Matcher) :
    Option VolumeFillMatchEndReason × Matcher :=
  let askQ := ask.quantity bid.price
  let bidQ := bid.quantity ask.price
  if (askQ == 0) || (bidQ == 0) then (some .ZeroQuantity, .mk c2 cp)
  else
    let matched := min askQ bidQ
    let cA :=
      { c2 with
        results :=
          { c2.results with totalVolume := c2.results.totalVolume + matched } }
    let cB :=
      { cA with
        results :=
          { cA.results with
            partialVolume :=
              ((if bid.isPartialSafe then cA.results.partialVolume.1 + matched
                else cA.results.partialVolume.1),
               (if ask.isPartialSafe then cA.results.partialVolume.2 + matched
                else cA.results.partialVolume.2)) } }
    match fillAmmStep fa bid.isAmm ask.isAmm matched cB with
    | none => (some .ErrorEncountered, .mk cB cp)
    | some cC => fillOutcome bid ask bidQ askQ matched cC cp

/-- single_match (volume.rs lines 139-380), with order selection and the
AMM curve step passed in as parameters.  Index updates made by selection
persist on every early return, as the source mutates them through Cells. -/
def singleMatch (no : NextOrderFn) (fa : FillAmmFn) (m : Matcher) :
    Option VolumeFillMatchEndReason × Matcher :=
  let c0 := m.core
  let cp := m.checkpoint
  match no true c0.bidIdx c0.debt c0.ammPrice c0.bidOutcomes with
  | none => (some .NoMoreBids, .mk c0 cp)
  | some (bid, bidIdx1) =>
    let c1 := { c0 with bidIdx := bidIdx1 }
    match no false c1.askIdx c1.debt c1.ammPrice c1.askOutcomes with
    | none => (some .NoMoreAsks, .mk c1 cp)
    | some (ask, askIdx1) =>
      let c2 := { c1 with askIdx := askIdx1 }
      if bid.isAmm && ask.isAmm then (some .BothSidesAMM, .mk c2 cp)
      else if bid.price < ask.price then (some .NoLongerCross, .mk c2 cp)
      else if (ask.quantity bid.price == 0) && ask.isDebt then
        debtBranch no fa bid ask c2 cp
      else fillStage fa bid ask c2 cp

/-- run_match (volume.rs lines 130-137): iterate single_match until an end
reason fires; the loop is given explicit fuel. -/
def runMatch (no : NextOrderFn) (fa : FillAmmFn) :
    Nat → Matcher → Option VolumeFillMatchEndReason × Matcher
  | 0, m => (none, m)
  | fuel + 1, m =>
    match singleMatch no fa m with
    | (some r, m2) => (some r, m2)
    | (none, m2) => runMatch no fa fuel m2

/-- Abstraction of VolumeFillMatcher::next_order_from_book
(volume.rs lines 622-651): side, index, outcomes and AMM price determine
the chosen order and the possibly advanced index. -/
def NextBookFn : Type :=
  Bool → Nat → List OrderFillState → Option Nat → Option (OrderData × Nat)

/-- Abstraction of the infallible AMM fill used by fill
(OrderContainer::AMM(o).fill(matched), volume.rs line 448): the end price
and the d_t0/d_t1 quantities of the move. -/
def AmmFillFn : Type := Nat → Nat × Nat × Nat

/-- Outcome application of the loop body of fill (volume.rs lines
463-512): the three quantity-comparison outcomes, without composite
checks, checkpointing exactly where the source does. -/
def fillLoopOutcome (bid ask : OrderData) (bidQ askQ matched : Nat)
    (cC : MatcherCore) (cp : Option Matcher) : Matcher :=
  match compare bidQ askQ with
  | .eq =>
    let c5 :=
      { cC with
        results :=
          { cC.results with
            price := some ((ask.price + bid.price) % 2 ^ 256 / 2) }
        askOutcomes :=
          if !ask.isAmm then cC.askOutcomes.set cC.askIdx .CompleteFill
          else cC.askOutcomes }
    let c6 :=
      { c5 with
        bidOutcomes :=
          if !bid.isAmm then c5.bidOutcomes.set c5.bidIdx .CompleteFill
          else c5.bidOutcomes }
    saveCheckpoint c6
  | .gt =>
    let c5 :=
      { cC with
        results := { cC.results with price := some bid.price }
        askOutcomes :=
          if !ask.isAmm then cC.askOutcomes.set cC.askIdx .CompleteFill
          else cC.askOutcomes }
    if !bid.isAmm then
      let c6 :=
        { c5 with
          bidOutcomes :=
            c5.bidOutcomes.set c5.bidIdx
              ((c5.bidOutcomes.getD c5.bidIdx .Unfilled).partialFill matched) }
      if bid.isPartialSafe then saveCheckpoint c6 else .mk c6 cp
    else .mk c5 cp
  | .lt =>
    let c5 :=
      { cC with
        results := { cC.results with price := some ask.price }
        bidOutcomes :=
          if !bid.isAmm then cC.bidOutcomes.set cC.bidIdx .CompleteFill
          else cC.bidOutcomes }
    if !ask.isAmm then
      let c6 :=
        { c5 with
          askOutcomes :=
            c5.askOutcomes.set c5.askIdx
              ((c5.askOutcomes.getD c5.askIdx .Unfilled).partialFill matched) }
      if ask.isPartialSafe then saveCheckpoint c6 else .mk c6 cp
    else .mk c5 cp

/-- One pass of the loop body of fill (volume.rs lines 384-513).  A first
component of none means the loop continues with the returned state.  The
second selection failure returns NoMoreBids exactly as the source does at
line 408, and the complete-fill marks carry no composite checks, again as
in the source. -/
def fillIteration (nb : NextBookFn) (af : AmmFillFn) (m : Matcher) :
    Option VolumeFillMatchEndReason × Matcher :=
  let c0 := m.core
    let cp := m.checkpoint
    match nb true c0.bidIdx c0.bidOutcomes c0.ammPrice with
    | none => (some .NoMoreBids, .mk c0 cp)
    | some (bid, bidIdx1) =>
      let c1 := { c0 with bidIdx := bidIdx1 }
      match nb false c1.askIdx c1.askOutcomes c1.ammPrice with
      | none => (some .NoMoreBids, .mk c1 cp)
      | some (ask, askIdx1) =>
        let c2 := { c1 with askIdx := askIdx1 }
        if bid.isAmm && ask.isAmm then (some .BothSidesAMM, .mk c2 cp)
        else if bid.price < ask.price then (some .NoLongerCross, .mk c2 cp)
        else
          let askQ := ask.quantity bid.price
          let bidQ := bid.quantity ask.price
          if (askQ == 0) || (bidQ == 0) then (some .ZeroQuantity, .mk c2 cp)
          else
            let matched := min askQ bidQ
            let cA :=
              { c2 with
                results :=
                  { c2.results with totalVolume := c2.results.totalVolume + matched } }
            let cB :=
              { cA with
                results :=
                  { cA.results with
                    partialVolume :=
                      ((if bid.isPartialSafe then cA.results.partialVolume.1 + matched
                        else cA.results.partialVolume.1),
                       (if ask.isPartialSafe then cA.results.partialVolume.2 + matched
                        else cA.results.partialVolume.2)) } }
            let cC :=
              if bid.isAmm || ask.isAmm then
                let r := af matched
                { cB with
                  ammPrice := some r.1
                  results :=
                    { cB.results with
                      ammVolume := cB.results.ammVolume + matched
                      ammFinalPrice := some r.1 }
                  ammOutcome :=
                    some ((cB.ammOutcome.getD (NetAmmOrder.new bid.isAmm)).addQuantity
                      r.2.1 r.2.2) }
              else cB
            (none, fillLoopOutcome bid ask bidQ askQ matched cC cp)

/-- fill (volume.rs lines 382-515): iterate the loop body until an end
reason fires, with explicit fuel. -/
def fillLoop (nb : NextBookFn) (af : AmmFillFn) :
    Nat → Matcher → Option VolumeFillMatchEndReason × Matcher
  | 0, m => (none, m)
  | fuel + 1, m =>
    match fillIteration nb af m with
    | (some r, m2) => (some r, m2)
    | (none, m2) => fillLoop nb af fuel m2

/-! ## Matcher invariants -/

/-- Checkpoint depth invariant: the stored checkpoint, when present, holds
no checkpoint of its own. -/
def oneDeepB (m : Matcher) : Bool :=
  match m.checkpoint with
  | none => true
  | some cp => cp.checkpoint.isNone

/-- Checkpoint volume invariant: the checkpointed total volume never
exceeds the live total volume. -/
def cpVolLeB (m : Matcher) : Bool :=
  match m.checkpoint with
  | none => true
  | some cp => Nat.ble cp.core.results.totalVolume m.core.results.totalVolume

theorem fillAmmCore_totalVolume {fa : FillAmmFn} {amm q : Nat} {d : Direction}
    {c c2 : MatcherCore} (h : fillAmmCore fa amm q d c = some c2) :
    c2.results.totalVolume = c.results.totalVolume := by
  unfold fillAmmCore at h
  cases hfa : fa amm q d with
  | none => simp [hfa] at h
  | some r =>
    simp only [hfa, Option.map_some] at h
    cases h
    rfl

theorem debtAmmStep_totalVolume {fa : FillAmmFn} {u : Bool} {q : Nat}
    {c c2 : MatcherCore} (h : debtAmmStep fa u q c = some c2) :
    c2.results.totalVolume = c.results.totalVolume := by
  unfold debtAmmStep at h
  split at h
  · split at h
    · exact fillAmmCore_totalVolume h
    · cases h; rfl
  · cases h; rfl

theorem fillAmmStep_totalVolume {fa : FillAmmFn} {b a : Bool} {q : Nat}
    {c c2 : MatcherCore} (h : fillAmmStep fa b a q c = some c2) :
    c2.results.totalVolume = c.results.totalVolume := by
  unfold fillAmmStep at h
  split at h
  · split at h
    · exact fillAmmCore_totalVolume h
    · exact fillAmmCore_totalVolume h
    · cases h; rfl
  · cases h; rfl

theorem debtOutcome_shape (nextAsk : OrderData) (nextAskQ curAskQ matched : Nat)
    (c4 : MatcherCore) (cp : Option Matcher) :
    ∃ cr : MatcherCore,
      c4.results.totalVolume ≤ cr.results.totalVolume ∧
        ((debtOutcome nextAsk nextAskQ curAskQ matched c4 cp).2 = .mk cr cp ∨
          (debtOutcome nextAsk nextAskQ curAskQ matched c4 cp).2 = saveCheckpoint cr) := by
  simp only [debtOutcome]
  repeat' split
  all_goals
    first
      | (refine ⟨_, ?_, Or.inl rfl⟩; exact Nat.le_refl _)
      | (refine ⟨_, ?_, Or.inr rfl⟩; exact Nat.le_refl _)

theorem fillOutcome_shape (bid ask : OrderData) (bidQ askQ matched : Nat)
    (cC : MatcherCore) (cp : Option Matcher) :
    ∃ cr : MatcherCore,
      cC.results.totalVolume ≤ cr.results.totalVolume ∧
        ((fillOutcome bid ask bidQ askQ matched cC cp).2 = .mk cr cp ∨
          (fillOutcome bid ask bidQ askQ matched cC cp).2 = saveCheckpoint cr) := by
  simp only [fillOutcome]
  repeat' split
  all_goals
    first
      | (refine ⟨_, ?_, Or.inl rfl⟩; exact Nat.le_refl _)
      | (refine ⟨_, ?_, Or.inr rfl⟩; exact Nat.le_refl _)

theorem debtOutcome_shape_after {fa : FillAmmFn} {u : Bool} {q : Nat}
    {c3 c4 : MatcherCore} {nextAsk : OrderData} {nq cq mt : Nat}
    {cp : Option Matcher} {tv : Nat}
    (h : debtAmmStep fa u q c3 = some c4) (htv : tv ≤ c3.results.totalVolume) :
    ∃ cr : MatcherCore,
      tv ≤ cr.results.totalVolume ∧
        ((debtOutcome nextAsk nq cq mt c4 cp).2 = .mk cr cp ∨
          (debtOutcome nextAsk nq cq mt c4 cp).2 = saveCheckpoint cr) := by
  obtain ⟨cr, hle, hor⟩ := debtOutcome_shape nextAsk nq cq mt c4 cp
  exact ⟨cr,
    le_trans htv (le_trans (Nat.le_of_eq (debtAmmStep_totalVolume h).symm) hle), hor⟩

theorem fillOutcome_shape_after {fa : FillAmmFn} {ba aa : Bool} {q : Nat}
    {cB cC : MatcherCore} {bid ask : OrderData} {bq aq mt : Nat}
    {cp : Option Matcher} {tv : Nat}
    (h : fillAmmStep fa ba aa q cB = some cC) (htv : tv ≤ cB.results.totalVolume) :
    ∃ cr : MatcherCore,
      tv ≤ cr.results.totalVolume ∧
        ((fillOutcome bid ask bq aq mt cC cp).2 = .mk cr cp ∨
          (fillOutcome bid ask bq aq mt cC cp).2 = saveCheckpoint cr) := by
  obtain ⟨cr, hle, hor⟩ := fillOutcome_shape bid ask bq aq mt cC cp
  exact ⟨cr,
    le_trans htv (le_trans (Nat.le_of_eq (fillAmmStep_totalVolume h).symm) hle), hor⟩

theorem debtBranch_shape (no : NextOrderFn) (fa : FillAmmFn)
    (bid ask : OrderData) (c2 : MatcherCore) (cp : Option Matcher) :
    ∃ cr : MatcherCore,
      c2.results.totalVolume ≤ cr.results.totalVolume ∧
        ((debtBranch no fa bid ask c2 cp).2 = .mk cr cp ∨
          (debtBranch no fa bid ask c2 cp).2 = saveCheckpoint cr) := by
  simp only [debtBranch]
  repeat' split
  all_goals
    first
      | (refine ⟨_, ?_, Or.inl rfl⟩; exact Nat.le_refl _)
      | exact debtOutcome_shape_after (by assumption) (by exact Nat.le_refl _)

theorem fillStage_shape (fa : FillAmmFn)
    (bid ask : OrderData) (c2 : MatcherCore) (cp : Option Matcher) :
    ∃ cr : MatcherCore,
      c2.results.totalVolume ≤ cr.results.totalVolume ∧
        ((fillStage fa bid ask c2 cp).2 = .mk cr cp ∨
          (fillStage fa bid ask c2 cp).2 = saveCheckpoint cr) := by
  simp only [fillStage]
  repeat' split
  all_goals
    first
      | (refine ⟨_, ?_, Or.inl rfl⟩; exact Nat.le_refl _)
      | (refine ⟨_, ?_, Or.inl rfl⟩; exact Nat.le_add_right _ _)
      | exact fillOutcome_shape_after (by assumption) (by exact Nat.le_add_right _ _)

theorem debtBranch_shape_tv (no : NextOrderFn) (fa : FillAmmFn)
    (bid ask : OrderData) {c2 : MatcherCore} (cp : Option Matcher)
    {tv : Nat} (htv : tv ≤ c2.results.totalVolume) :
    ∃ cr : MatcherCore,
      tv ≤ cr.results.totalVolume ∧
        ((debtBranch no fa bid ask c2 cp).2 = .mk cr cp ∨
          (debtBranch no fa bid ask c2 cp).2 = saveCheckpoint cr) := by
  obtain ⟨cr, hle, hor⟩ := debtBranch_shape no fa bid ask c2 cp
  exact ⟨cr, le_trans htv hle, hor⟩

theorem fillStage_shape_tv (fa : FillAmmFn)
    (bid ask : OrderData) {c2 : MatcherCore} (cp : Option Matcher)
    {tv : Nat} (htv : tv ≤ c2.results.totalVolume) :
    ∃ cr : MatcherCore,
      tv ≤ cr.results.totalVolume ∧
        ((fillStage fa bid ask c2 cp).2 = .mk cr cp ∨
          (fillStage fa bid ask c2 cp).2 = saveCheckpoint cr) := by
  obtain ⟨cr, hle, hor⟩ := fillStage_shape fa bid ask c2 cp
  exact ⟨cr, le_trans htv hle, hor⟩

/-- Every single_match run either keeps the checkpoint slot untouched or
replaces it by a fresh checkpoint of the final core; the core it ends with
has at least the total volume it started with. -/
theorem singleMatch_shape (no : NextOrderFn) (fa : FillAmmFn)
    (c : MatcherCore) (cp : Option Matcher) :
    ∃ c2 : MatcherCore,
      c.results.totalVolume ≤ c2.results.totalVolume ∧
        ((singleMatch no fa (.mk c cp)).2 = .mk c2 cp ∨
          (singleMatch no fa (.mk c cp)).2 = saveCheckpoint c2) := by
  simp only [singleMatch, Matcher.core, Matcher.checkpoint]
  repeat' split
  all_goals
    first
      | (refine ⟨_, ?_, Or.inl rfl⟩; exact Nat.le_refl _)
      | exact debtBranch_shape_tv no fa _ _ cp (by exact Nat.le_refl _)
      | exact fillStage_shape_tv fa _ _ cp (by exact Nat.le_refl _)

theorem singleMatch_oneDeep (no : NextOrderFn) (fa : FillAmmFn) (m : Matcher)
    (h : oneDeepB m = true) : oneDeepB (singleMatch no fa m).2 = true := by
  obtain ⟨c, cp⟩ := m
  obtain ⟨c2, -, hor | hor⟩ := singleMatch_shape no fa c cp
  · rw [hor]; exact h
  · rw [hor]; rfl

theorem singleMatch_tv_mono (no : NextOrderFn) (fa : FillAmmFn) (m : Matcher) :
    m.core.results.totalVolume ≤ ((singleMatch no fa m).2).core.results.totalVolume := by
  obtain ⟨c, cp⟩ := m
  obtain ⟨c2, hle, hor | hor⟩ := singleMatch_shape no fa c cp <;> rw [hor] <;> exact hle

theorem singleMatch_cpVolLe (no : NextOrderFn) (fa : FillAmmFn) (m : Matcher)
    (h : cpVolLeB m = true) : cpVolLeB (singleMatch no fa m).2 = true := by
  obtain ⟨c, cp⟩ := m
  obtain ⟨c2, hle, hor | hor⟩ := singleMatch_shape no fa c cp
  · rw [hor]
    cases cp with
    | none => rfl
    | some cpm =>
      simp only [cpVolLeB, Matcher.checkpoint, Matcher.core, Nat.ble_eq] at h ⊢
      exact le_trans h hle
  · rw [hor]
    simp [cpVolLeB, saveCheckpoint, Matcher.checkpoint, Matcher.core, Nat.ble_eq]

theorem runMatch_oneDeep (no : NextOrderFn) (fa : FillAmmFn) (fuel : Nat) :
    ∀ m : Matcher, oneDeepB m = true → oneDeepB (runMatch no fa fuel m).2 = true := by
  induction fuel with
  | zero => exact fun m h => h
  | succ n ih =>
    intro m h
    simp only [runMatch]
    split
    · next r m2 heq =>
      have := singleMatch_oneDeep no fa m h
      rw [heq] at this
      exact this
    · next m2 heq =>
      have := singleMatch_oneDeep no fa m h
      rw [heq] at this
      exact ih m2 this

theorem fillLoopOutcome_shape (bid ask : OrderData) (bidQ askQ matched : Nat)
    (cC : MatcherCore) (cp : Option Matcher) :
    ∃ c2 : MatcherCore,
      fillLoopOutcome bid ask bidQ askQ matched cC cp = .mk c2 cp ∨
        fillLoopOutcome bid ask bidQ askQ matched cC cp = saveCheckpoint c2 := by
  simp only [fillLoopOutcome]
  repeat' split
  all_goals
    first
      | exact ⟨_, Or.inl rfl⟩
      | exact ⟨_, Or.inr rfl⟩

theorem fillIteration_shape (nb : NextBookFn) (af : AmmFillFn)
    (c : MatcherCore) (cp : Option Matcher) :
    ∃ c2 : MatcherCore,
      (fillIteration nb af (.mk c cp)).2 = .mk c2 cp ∨
        (fillIteration nb af (.mk c cp)).2 = saveCheckpoint c2 := by
  simp only [fillIteration, Matcher.core, Matcher.checkpoint]
  repeat' split
  all_goals
    first
      | exact ⟨_, Or.inl rfl⟩
      | exact ⟨_, Or.inr rfl⟩
      | exact fillLoopOutcome_shape _ _ _ _ _ _ cp

theorem fillIteration_oneDeep (nb : NextBookFn) (af : AmmFillFn) (m : Matcher)
    (h : oneDeepB m = true) : oneDeepB (fillIteration nb af m).2 = true := by
  obtain ⟨c, cp⟩ := m
  obtain ⟨c2, hor | hor⟩ := fillIteration_shape nb af c cp
  · rw [hor]; exact h
  · rw [hor]; rfl

theorem fillLoop_oneDeep (nb : NextBookFn) (af : AmmFillFn) (fuel : Nat) :
    ∀ m : Matcher, oneDeepB m = true → oneDeepB (fillLoop nb af fuel m).2 = true := by
  induction fuel with
  | zero => exact fun m h => h
  | succ n ih =>
    intro m h
    simp only [fillLoop]
    split
    · next r m2 heq =>
      have := fillIteration_oneDeep nb af m h
      rw [heq] at this
      exact this
    · next m2 heq =>
      have := fillIteration_oneDeep nb af m h
      rw [heq] at this
      exact ih m2 this

/-! ## Concrete instances used by witnesses and counterexamples -/

/-- Order selection that never finds an order. -/
def noneOrderFn : NextOrderFn := fun _ _ _ _ _ => none

/-- AMM step that always fails. -/
def failAmmFn : FillAmmFn := fun _ _ _ => none

/-- Helper building a concrete order view. -/
def mkOrder (amm comp debt pSafe : Bool) (price : Nat) (q : Nat → Nat) : OrderData :=
  { isAmm := amm, isComposite := comp, isDebt := debt, isPartialSafe := pSafe
    price := price, quantity := q, negQuantity := fun _ => 0
    ammIntersect := fun _ => none }

/-- A composite (debt-only) bid: is_amm false, is_composite true, as for
OrderContainer::Composite holding only debt (book/order.rs lines 32-54). -/
def bidCompositeEq : OrderData := mkOrder false true true false 10 (fun _ => 7)

/-- A plain book ask with the same quantity. -/
def askBookEq : OrderData := mkOrder false false false false 4 (fun _ => 7)

/-- Selection returning the composite bid and the book ask at index 0. -/
def selC1 : NextOrderFn := fun isBid _ _ _ _ =>
  if isBid then some (bidCompositeEq, 0) else some (askBookEq, 0)

/-- A plain non-debt ask whose quantity is zero at every price. -/
def askZeroQ : OrderData := mkOrder false false false false 4 (fun _ => 0)

/-- A plain book bid with positive quantity. -/
def bidPlain : OrderData := mkOrder false false false false 10 (fun _ => 5)

/-- Selection returning the plain bid and the zero-quantity ask. -/
def selZeroAsk : NextOrderFn := fun isBid _ _ _ _ =>
  if isBid then some (bidPlain, 0) else some (askZeroQ, 0)

/-- Order selection yielding no order on the book side. -/
def nbNoneFn : NextBookFn := fun _ _ _ _ => none

/-- Trivial infallible AMM fill. -/
def afTrivFn : AmmFillFn := fun q => (q, q, q)

/-! ## Claims over the matcher state -/

/-- Claim C8: for every VolumeFillMatcher state reachable through new,
single_match, run_match or fill, the stored checkpoint never itself holds
a checkpoint: every checkpoint written by save_checkpoint has its own
checkpoint field equal to none, so the checkpoint is a one-deep copy. -/
theorem claim_C8 :
    (∀ c : MatcherCore, (saveCheckpoint c).checkpoint = some (.mk c none)) ∧
    (∀ numBids numAsks ammPrice, oneDeepB (Matcher.new numBids numAsks ammPrice) = true) ∧
    (∀ (no : NextOrderFn) (fa : FillAmmFn) (m : Matcher),
        oneDeepB m = true → oneDeepB (singleMatch no fa m).2 = true) ∧
    (∀ (no : NextOrderFn) (fa : FillAmmFn) (fuel : Nat) (m : Matcher),
        oneDeepB m = true → oneDeepB (runMatch no fa fuel m).2 = true) ∧
    (∀ (nb : NextBookFn) (af : AmmFillFn) (fuel : Nat) (m : Matcher),
        oneDeepB m = true → oneDeepB (fillLoop nb af fuel m).2 = true) :=
  ⟨fun _ => rfl, fun _ _ _ => rfl, singleMatch_oneDeep,
   fun no fa fuel m h => runMatch_oneDeep no fa fuel m h,
   fun nb af fuel m h => fillLoop_oneDeep nb af fuel m h⟩

/-- Witness for C8 at concrete inputs. -/
theorem claim_C8_witness :
    oneDeepB (singleMatch selC1 failAmmFn (Matcher.new 1 1 none)).2 = true ∧
    oneDeepB (runMatch selC1 failAmmFn 2 (Matcher.new 1 1 none)).2 = true ∧
    oneDeepB (fillLoop nbNoneFn afTrivFn 2 (Matcher.new 1 1 none)).2 = true :=
  ⟨claim_C8.2.2.1 selC1 failAmmFn (Matcher.new 1 1 none) (by rfl),
   claim_C8.2.2.2.1 selC1 failAmmFn 2 (Matcher.new 1 1 none) (by rfl),
   claim_C8.2.2.2.2 nbNoneFn afTrivFn 2 (Matcher.new 1 1 none) (by rfl)⟩

/-- Claim C5: for every VolumeFillMatcher, after any successful iteration
of single_match (one returning none), the checkpointed total volume is at
most the live total volume; total volume never decreases across an
iteration, and a fresh matcher satisfies the invariant. -/
theorem claim_C5 :
    (∀ numBids numAsks ammPrice,
        cpVolLeB (Matcher.new numBids numAsks ammPrice) = true) ∧
    (∀ (no : NextOrderFn) (fa : FillAmmFn) (m m2 : Matcher),
        singleMatch no fa m = (none, m2) →
          cpVolLeB m = true → cpVolLeB m2 = true) ∧
    (∀ (no : NextOrderFn) (fa : FillAmmFn)
        (r : Option VolumeFillMatchEndReason) (m m2 : Matcher),
        singleMatch no fa m = (r, m2) →
          m.core.results.totalVolume ≤ m2.core.results.totalVolume) := by
  refine ⟨fun _ _ _ => rfl, ?_, ?_⟩
  · intro no fa m m2 heq h
    have := singleMatch_cpVolLe no fa m h
    rw [heq] at this
    exact this
  · intro no fa r m m2 heq
    have := singleMatch_tv_mono no fa m
    rw [heq] at this
    exact this

/-- Witness for C5 at a concrete successful iteration. -/
theorem claim_C5_witness :
    cpVolLeB (singleMatch selC1 failAmmFn (Matcher.new 1 1 none)).2 = true ∧
    (Matcher.new 1 1 none).core.results.totalVolume ≤
      ((singleMatch selC1 failAmmFn (Matcher.new 1 1 none)).2).core.results.totalVolume :=
  ⟨claim_C5.2.1 selC1 failAmmFn (Matcher.new 1 1 none)
      (singleMatch selC1 failAmmFn (Matcher.new 1 1 none)).2 (by rfl) (by rfl),
   claim_C5.2.2 selC1 failAmmFn
      (singleMatch selC1 failAmmFn (Matcher.new 1 1 none)).1
      (Matcher.new 1 1 none)
      (singleMatch selC1 failAmmFn (Matcher.new 1 1 none)).2 (by rfl)⟩

/-- Claim C9: restore_checkpoint with a saved checkpoint returns true and
overwrites exactly bid_idx, bid_outcomes, ask_idx, ask_outcomes and
amm_price from the checkpoint, leaving results, debt and amm_outcome
unchanged and clearing the checkpoint slot; with no checkpoint it returns
false and changes nothing. -/
theorem claim_C9 (m : Matcher) :
    (m.checkpoint = none → m.restoreCheckpoint = (false, m)) ∧
    (∀ (cc : MatcherCore) (ccp : Option Matcher),
        m.checkpoint = some (.mk cc ccp) →
          m.restoreCheckpoint =
            (true,
              .mk
                { m.core with
                  bidIdx := cc.bidIdx
                  bidOutcomes := cc.bidOutcomes
                  askIdx := cc.askIdx
                  askOutcomes := cc.askOutcomes
                  ammPrice := cc.ammPrice }
                none)) := by
  obtain ⟨c, cp⟩ := m
  constructor
  · intro h
    cases cp with
    | none => rfl
    | some x => exact absurd h (by simp [Matcher.checkpoint])
  · intro cc ccp h
    cases cp with
    | none => exact absurd h (by simp [Matcher.checkpoint])
    | some x =>
      have hx : x = .mk cc ccp := by
        simpa [Matcher.checkpoint] using h
      subst hx
      rfl

/-- Witness for C9 at a concrete matcher carrying its initial checkpoint. -/
theorem claim_C9_witness :
    (Matcher.new 2 3 none).checkpoint =
        some (.mk (Matcher.new 2 3 none).core none) ∧
      (Matcher.new 2 3 none).restoreCheckpoint =
        (true,
          .mk
            { (Matcher.new 2 3 none).core with
              bidIdx := ((Matcher.new 2 3 none).core).bidIdx
              bidOutcomes := ((Matcher.new 2 3 none).core).bidOutcomes
              askIdx := ((Matcher.new 2 3 none).core).askIdx
              askOutcomes := ((Matcher.new 2 3 none).core).askOutcomes
              ammPrice := ((Matcher.new 2 3 none).core).ammPrice }
            none) :=
  ⟨rfl, (claim_C9 (Matcher.new 2 3 none)).2 (Matcher.new 2 3 none).core none rfl⟩

theorem fillOutcome_fst (bid ask : OrderData) (bq aq mt : Nat)
    (cC : MatcherCore) (cp : Option Matcher) :
    (fillOutcome bid ask bq aq mt cC cp).1 = none := by
  simp only [fillOutcome]
  repeat' split
  all_goals rfl

theorem fillStage_fst_of_zero {fa : FillAmmFn} {bid ask : OrderData}
    {c2 : MatcherCore} {cp : Option Matcher}
    (h : ask.quantity bid.price = 0 ∨ bid.quantity ask.price = 0) :
    (fillStage fa bid ask c2 cp).1 = some .ZeroQuantity := by
  simp only [fillStage]
  have hcond : (ask.quantity bid.price == 0 || bid.quantity ask.price == 0) = true := by
    simp only [Bool.or_eq_true, beq_iff_eq]
    exact h
  rw [if_pos hcond]

theorem fillStage_fst_of_nonzero {fa : FillAmmFn} {bid ask : OrderData}
    {c2 : MatcherCore} {cp : Option Matcher}
    (ha : ask.quantity bid.price ≠ 0) (hb : bid.quantity ask.price ≠ 0) :
    (fillStage fa bid ask c2 cp).1 ≠ some .ZeroQuantity := by
  simp only [fillStage]
  have hcond : ¬((ask.quantity bid.price == 0 || bid.quantity ask.price == 0) = true) := by
    simp only [Bool.or_eq_true, beq_iff_eq]
    rintro (h | h)
    · exact ha h
    · exact hb h
  rw [if_neg hcond]
  split
  · intro habs
    simp at habs
  · rw [fillOutcome_fst]
    intro habs
    simp at habs

/-- Reduction of single_match once both selections are known: the state
after selection carries the two updated indices, and the run continues
with the end-state checks, the debt branch or the fill stage. -/
theorem singleMatch_eq (no : NextOrderFn) (fa : FillAmmFn)
    (c : MatcherCore) (cp : Option Matcher) (bid ask : OrderData) (i j : Nat)
    (hb : no true c.bidIdx c.debt c.ammPrice c.bidOutcomes = some (bid, i))
    (ha : no false c.askIdx c.debt c.ammPrice c.askOutcomes = some (ask, j)) :
    singleMatch no fa (.mk c cp) =
      (if bid.isAmm && ask.isAmm then
        (some .BothSidesAMM, .mk { c with bidIdx := i, askIdx := j } cp)
      else if bid.price < ask.price then
        (some .NoLongerCross, .mk { c with bidIdx := i, askIdx := j } cp)
      else if (ask.quantity bid.price == 0) && ask.isDebt then
        debtBranch no fa bid ask { c with bidIdx := i, askIdx := j } cp
      else fillStage fa bid ask { c with bidIdx := i, askIdx := j } cp) := by
  simp only [singleMatch, Matcher.core, Matcher.checkpoint, hb, ha]

/-- Claim C6 (amended): for every invocation of single_match in which both
selections succeed, the two sides are not both AMM and the zero-ask-with-
debt branch is not taken, the run ends with ZeroQuantity exactly when at
least one of the two quantities is zero; when prices no longer cross
(ask.price above bid.price) it instead ends with NoLongerCross with the
state unchanged apart from the selection indices, so before any quantity
is matched. -/
theorem claim_C6 (no : NextOrderFn) (fa : FillAmmFn) (m : Matcher)
    (bid ask : OrderData) (i j : Nat)
    (hb : no true m.core.bidIdx m.core.debt m.core.ammPrice m.core.bidOutcomes =
      some (bid, i))
    (ha : no false m.core.askIdx m.core.debt m.core.ammPrice m.core.askOutcomes =
      some (ask, j))
    (hna : ¬(bid.isAmm = true ∧ ask.isAmm = true)) :
    (bid.price < ask.price →
        singleMatch no fa m =
          (some .NoLongerCross,
            .mk { m.core with bidIdx := i, askIdx := j } m.checkpoint)) ∧
    (¬bid.price < ask.price →
      ¬(ask.quantity bid.price = 0 ∧ ask.isDebt = true) →
        ((singleMatch no fa m).1 = some .ZeroQuantity ↔
          (ask.quantity bid.price = 0 ∨ bid.quantity ask.price = 0))) := by
  obtain ⟨c, cp⟩ := m
  dsimp only [Matcher.core, Matcher.checkpoint] at hb ha ⊢
  have hAmm : (bid.isAmm && ask.isAmm) = false := by
    cases hba : bid.isAmm <;> cases haa : ask.isAmm <;> simp_all
  rw [singleMatch_eq no fa c cp bid ask i j hb ha]
  constructor
  · intro hlt
    rw [hAmm]
    simp only [Bool.false_eq_true, if_false]
    rw [if_pos hlt]
  · intro hnlt hnd
    have hDebt : ((ask.quantity bid.price == 0) && ask.isDebt) = false := by
      cases hq : (ask.quantity bid.price == 0) <;> cases hd : ask.isDebt <;>
        simp_all [beq_iff_eq]
    rw [hAmm, hDebt]
    simp only [Bool.false_eq_true, if_false]
    rw [if_neg hnlt]
    by_cases hz : ask.quantity bid.price = 0 ∨ bid.quantity ask.price = 0
    · constructor
      · intro _
        exact hz
      · intro _
        exact fillStage_fst_of_zero hz
    · push_neg at hz
      constructor
      · intro habs
        exact absurd habs (fillStage_fst_of_nonzero hz.1 hz.2)
      · intro h2
        exact absurd h2 (by push_neg; exact hz)

/-- Witness for the amended C6 at concrete inputs: a zero-quantity
non-debt ask against a positive bid ends the run with ZeroQuantity. -/
theorem claim_C6_witness :
    (singleMatch selZeroAsk failAmmFn (Matcher.new 1 1 none)).1 =
      some .ZeroQuantity :=
  ((claim_C6 selZeroAsk failAmmFn (Matcher.new 1 1 none) bidPlain askZeroQ 0 0
      (by rfl) (by rfl) (by decide)).2 (by decide) (by decide)).mpr
    (by decide)

/-- Counterexample to claim C6 as stated: the run ends with ZeroQuantity
although the two quantities are not both zero (only the ask quantity is
zero), and the ask does not carry the debt. -/
theorem claim_C6_counterexample :
    (singleMatch selZeroAsk failAmmFn (Matcher.new 1 1 none)).1 =
        some .ZeroQuantity ∧
      askZeroQ.isDebt = false ∧
      ¬(askZeroQ.quantity bidPlain.price = 0 ∧
          bidPlain.quantity askZeroQ.price = 0) :=
  ⟨rfl, rfl, by decide⟩

/-- Claim C1 (code-bug exhibit): at an equal-quantity match between a
composite non-AMM bid and a plain book ask, single_match sets the result
price to the U256 midpoint, marks the ask CompleteFill, saves a
checkpoint, and also marks the bid slot CompleteFill even though the bid
is Composite, because source line 331 tests ask.is_composite in place of
bid.is_composite. -/
theorem claim_C1_bug :
    bidCompositeEq.isComposite = true ∧
    bidCompositeEq.isAmm = false ∧
    askBookEq.isComposite = false ∧
    bidCompositeEq.quantity askBookEq.price = askBookEq.quantity bidCompositeEq.price ∧
    (singleMatch selC1 failAmmFn (Matcher.new 1 1 none)).1 = none ∧
    ((singleMatch selC1 failAmmFn (Matcher.new 1 1 none)).2).core.results.price =
      some ((askBookEq.price + bidCompositeEq.price) % 2 ^ 256 / 2) ∧
    ((singleMatch selC1 failAmmFn (Matcher.new 1 1 none)).2).core.askOutcomes =
      [.CompleteFill] ∧
    ((singleMatch selC1 failAmmFn (Matcher.new 1 1 none)).2).core.bidOutcomes =
      [.CompleteFill] ∧
    ((singleMatch selC1 failAmmFn (Matcher.new 1 1 none)).2).checkpoint =
      some (.mk ((singleMatch selC1 failAmmFn (Matcher.new 1 1 none)).2).core none) :=
  ⟨rfl, rfl, rfl, rfl, rfl, rfl, rfl, rfl, rfl⟩

/-! ## Consensus: BidAggregation round state
(crates/consensus/src/rounds/bid_aggregation.rs) -/

/-- BidAggregationState (bid_aggregation.rs lines 20-30): the accumulated
pre-proposal sets, the optional verified proposal, and (abstracted away
here) the transition timeout and waker.  The set types are parameters. -/
structure BidAggregationState (Pre Agg Prp : Type) where
  receivedPreProposals : Pre
  preProposalsAggregation : Agg
  proposal : Option Prp

/-- StromConsensusEvent as consumed by on_consensus_message
(bid_aggregation.rs lines 58-79). -/
inductive StromConsensusEvent (Peer PreP PreAgg Prp : Type) where
  | PreProposal (peer : Peer) (p : PreP)
  | PreProposalAgg (peer : Peer) (a : PreAgg)
  | Proposal (peer : Peer) (p : Prp)

/-- The handles the state calls into (Consensus is not given to this
state machine module beyond these operations): the two set-updating
handlers, proposal verification, and the default empty sets taken by
std::mem::take. -/
structure ConsensusHandles (Peer PreP PreAgg Prp Pre Agg : Type) where
  handlePreProposal : Peer → PreP → Pre → Pre
  handlePreProposalAggregation : Peer → PreAgg → Agg → Agg
  verifyProposal : Peer → Prp → Option Prp
  emptyPre : Pre
  emptyAgg : Agg

/-- on_consensus_message (bid_aggregation.rs lines 53-81): pre-proposals
and aggregations are folded into their sets; a proposal accepted by
verify_proposal is stored (the waker call is a no-op here). -/
def BidAggregationState.onConsensusMessage
    {Peer PreP PreAgg Prp Pre Agg : Type}
    (h : ConsensusHandles Peer PreP PreAgg Prp Pre Agg)
    (s : BidAggregationState Pre Agg Prp)
    (msg : StromConsensusEvent Peer PreP PreAgg Prp) :
    BidAggregationState Pre Agg Prp :=
  match msg with
  | .PreProposal peer p =>
    { s with receivedPreProposals := h.handlePreProposal peer p s.receivedPreProposals }
  | .PreProposalAgg peer a =>
    { s with
      preProposalsAggregation :=
        h.handlePreProposalAggregation peer a s.preProposalsAggregation }
  | .Proposal peer p =>
    match h.verifyProposal peer p with
    | some q => { s with proposal := some q }
    | none => s

/-- The two successor states poll_transition can produce
(bid_aggregation.rs lines 88-108): FinalizationState::new carrying the
proposal, or PreProposalState::new carrying the taken sets. -/
inductive RoundTransition (Pre Agg Prp : Type) where
  | toFinalization (p : Prp)
  | toPreProposal (pre : Pre) (agg : Agg)

/-- Result of one poll. -/
inductive PollResult (A : Type) where
  | Ready (a : A)
  | Pending

/-- poll_transition (bid_aggregation.rs lines 83-112): a stored proposal
is taken and short-circuits to Finalization; otherwise, when the timeout
has fired, the accumulated sets are taken into the PreProposal state;
otherwise the poll is pending. -/
def BidAggregationState.pollTransition
    {Peer PreP PreAgg Prp Pre Agg : Type}
    (h : ConsensusHandles Peer PreP PreAgg Prp Pre Agg)
    (s : BidAggregationState Pre Agg Prp) (timeoutReady : Bool) :
    PollResult (RoundTransition Pre Agg Prp) × BidAggregationState Pre Agg Prp :=
  match s.proposal with
  | some p => (.Ready (.toFinalization p), { s with proposal := none })
  | none =>
    if timeoutReady then
      (.Ready (.toPreProposal s.receivedPreProposals s.preProposalsAggregation),
        { s with
          receivedPreProposals := h.emptyPre
          preProposalsAggregation := h.emptyAgg })
    else (.Pending, s)

/-- Claim C2: in BidAggregation, once a Proposal accepted by
verify_proposal has been received, the next poll_transition goes directly
to Finalization carrying that proposal, whatever the timeout state (so
never to PreProposal); and a transition to PreProposal happens only when
no proposal is pending and the timeout has fired, carrying exactly the
accumulated sets of PreProposals and PreProposalAggregations. -/
theorem claim_C2 {Peer PreP PreAgg Prp Pre Agg : Type}
    (h : ConsensusHandles Peer PreP PreAgg Prp Pre Agg) :
    (∀ (s : BidAggregationState Pre Agg Prp) (peer : Peer) (p q : Prp),
        h.verifyProposal peer p = some q →
          ∀ timeoutReady,
            (BidAggregationState.pollTransition h
                (BidAggregationState.onConsensusMessage h s (.Proposal peer p))
                timeoutReady).1 =
              .Ready (.toFinalization q)) ∧
    (∀ (s : BidAggregationState Pre Agg Prp) (timeoutReady : Bool)
        (pre : Pre) (agg : Agg),
        (BidAggregationState.pollTransition h s timeoutReady).1 =
            .Ready (.toPreProposal pre agg) →
          s.proposal = none ∧ timeoutReady = true ∧
            pre = s.receivedPreProposals ∧ agg = s.preProposalsAggregation) := by
  constructor
  · intro s peer p q hv timeoutReady
    simp only [BidAggregationState.onConsensusMessage, hv,
      BidAggregationState.pollTransition]
  · intro s timeoutReady pre agg hp
    cases hprop : s.proposal with
    | some p =>
      rw [BidAggregationState.pollTransition, hprop] at hp
      cases hp
    | none =>
      rw [BidAggregationState.pollTransition, hprop] at hp
      cases ht : timeoutReady with
      | false =>
        rw [ht] at hp
        simp at hp
      | true =>
        rw [ht] at hp
        simp only [if_true] at hp
        cases hp
        exact ⟨rfl, rfl, rfl, rfl⟩

/-- Concrete handles over Nat used by the C2 witness. -/
def natHandles : ConsensusHandles Nat Nat Nat Nat Nat Nat :=
  ⟨fun _ p s => s + p, fun _ a s => s + a, fun _ p => some p, 0, 0⟩

/-- Witness for C2 at concrete instantiations over Nat. -/
theorem claim_C2_witness :
    (BidAggregationState.pollTransition natHandles
        (BidAggregationState.onConsensusMessage natHandles
          ⟨5, 6, none⟩ (.Proposal 3 42)) false).1 =
      .Ready (.toFinalization 42) :=
  (claim_C2 natHandles).1 ⟨5, 6, none⟩ 3 42 42 (by rfl) false

/-! ## Commit hashing and signing (crates/types/src/consensus/commit.rs) -/

/-- Big-endian byte encoding of a u64, as produced by
block_height.to_be_bytes() in commit.rs. -/
def u64ToBeBytes (n : Nat) : List Nat :=
  [n / 2 ^ 56 % 256, n / 2 ^ 48 % 256, n / 2 ^ 40 % 256, n / 2 ^ 32 % 256,
   n / 2 ^ 24 % 256, n / 2 ^ 16 % 256, n / 2 ^ 8 % 256, n % 256]

/-- The incremental Keccak256 hasher as used by commit.rs: update appends
bytes, finalize applies the (abstract) keccak function to the accumulated
bytes.  B256 values are byte lists. -/
structure Keccak256 where
  acc : List Nat

def Keccak256.empty : Keccak256 := ⟨[]⟩

def Keccak256.update (h : Keccak256) (bs : List Nat) : Keccak256 :=
  ⟨h.acc ++ bs⟩

def Keccak256.finalize (h : Keccak256) (keccak : List Nat → List Nat) : List Nat :=
  keccak h.acc

/-- Commit (commit.rs lines 12-21), with the signature type abstract. -/
structure Commit (Sig : Type) where
  blockHeight : Nat
  source : Nat
  preproposalHash : List Nat
  solutionHash : List Nat
  signature : Sig

/-- Commit::generate_commit_all (commit.rs lines 24-41): hash the
height, preproposal hash and solution hash in that order and sign the
digest as validator 0. -/
def Commit.generateCommitAll {Sig : Type} (keccak : List Nat → List Nat)
    (sign : Nat → List Nat → Sig) (blockHeight source : Nat)
    (preproposalHash solutionHash : List Nat) : Commit Sig :=
  let hasher := Keccak256.empty
  let hasher := hasher.update (u64ToBeBytes blockHeight)
  let hasher := hasher.update preproposalHash
  let hasher := hasher.update solutionHash
  let message := hasher.finalize keccak
  { blockHeight, source, preproposalHash, solutionHash,
    signature := sign 0 message }

/-- Commit::hash_message (commit.rs lines 55-61). -/
def Commit.hashMessage {Sig : Type} (keccak : List Nat → List Nat)
    (c : Commit Sig) : List Nat :=
  let hasher := Keccak256.empty
  let hasher := hasher.update (u64ToBeBytes c.blockHeight)
  let hasher := hasher.update c.preproposalHash
  let hasher := hasher.update c.solutionHash
  hasher.finalize keccak

/-- Commit::add_signature (commit.rs lines 63-72): countersign
hash_message into the aggregate signature as the given validator. -/
def Commit.addSignature {Sig : Type} (keccak : List Nat → List Nat)
    (signInto : Sig → Nat → List Nat → Sig) (c : Commit Sig)
    (validatorId : Nat) : Commit Sig :=
  { c with signature := signInto c.signature validatorId (c.hashMessage keccak) }

/-- Claim C3: the message signed in a Commit, both when generated via
generate_commit_all and when countersigned via add_signature, is
keccak256 of the big-endian 8-byte height, then the 32-byte preproposal
hash, then the 32-byte solution hash, concatenated in that order; the
height encoding is 8 bytes and decodes back to the height mod 2^64. -/
theorem claim_C3 :
    (∀ {Sig : Type} (keccak : List Nat → List Nat) (sign : Nat → List Nat → Sig)
        (h src : Nat) (pre sol : List Nat),
        (Commit.generateCommitAll keccak sign h src pre sol).signature =
          sign 0 (keccak (u64ToBeBytes h ++ pre ++ sol))) ∧
    (∀ {Sig : Type} (keccak : List Nat → List Nat) (c : Commit Sig),
        Commit.hashMessage keccak c =
          keccak (u64ToBeBytes c.blockHeight ++ c.preproposalHash ++ c.solutionHash)) ∧
    (∀ {Sig : Type} (keccak : List Nat → List Nat)
        (signInto : Sig → Nat → List Nat → Sig) (c : Commit Sig) (vid : Nat),
        (Commit.addSignature keccak signInto c vid).signature =
          signInto c.signature vid
            (keccak (u64ToBeBytes c.blockHeight ++ c.preproposalHash ++ c.solutionHash))) ∧
    (∀ n : Nat, (u64ToBeBytes n).length = 8) ∧
    (∀ n : Nat, (u64ToBeBytes n).foldl (fun a b => a * 256 + b) 0 = n % 2 ^ 64) := by
  refine ⟨?_, ?_, ?_, fun n => rfl, ?_⟩
  · intro Sig keccak sign h src pre sol
    simp [Commit.generateCommitAll, Keccak256.empty, Keccak256.update,
      Keccak256.finalize, List.append_assoc]
  · intro Sig keccak c
    simp [Commit.hashMessage, Keccak256.empty, Keccak256.update,
      Keccak256.finalize, List.append_assoc]
  · intro Sig keccak signInto c vid
    simp [Commit.addSignature, Commit.hashMessage, Keccak256.empty,
      Keccak256.update, Keccak256.finalize, List.append_assoc]
  · intro n
    simp only [u64ToBeBytes, List.foldl]
    omega

/-! ## Commit aggregation bitmaps -/

/-- Modelled from the spec: BLSSignature (crate::primitive) is not among
the sources; per spec section 4.5 a commit carries a 128-bit validator
bitmap and merging two aggregates merges the signatures and unions the
bitmaps.  The group elements are irrelevant to the bitmap claim, so the
aggregate is modelled by its bitmap. -/
structure BLSAgg where
  bitmap : Finset (Fin 128)
  deriving DecidableEq

/-- Modelled from the spec: aggregation of two BLS aggregate signatures
unions their validator bitmaps. -/
def BLSAgg.merge (a b : BLSAgg) : BLSAgg := ⟨a.bitmap ∪ b.bitmap⟩

/-- Modelled from the spec: the aggregate holding one validator's
signature has exactly that validator's bit set. -/
def BLSAgg.single (v : Fin 128) : BLSAgg := ⟨{v}⟩

/-- Commit::validator_map (commit.rs lines 46-48): the bitmap of the
signature. -/
def Commit.validatorMap (c : Commit BLSAgg) : Finset (Fin 128) :=
  c.signature.bitmap

/-- Merging the aggregate signatures of two commits of the same proposal. -/
def Commit.mergeCommits (a b : Commit BLSAgg) : Commit BLSAgg :=
  { a with signature := a.signature.merge b.signature }

/-- Claim C4: merging two commit aggregations of the same proposal yields
the set union of their validator bitmaps; merging a commit signed only by
validator 0 with one signed only by validator 7 yields exactly bits 0 and
7; and the merged bitmap does not depend on arrival order. -/
theorem claim_C4 :
    (∀ a b : Commit BLSAgg,
        (a.mergeCommits b).validatorMap = a.validatorMap ∪ b.validatorMap) ∧
    (∀ (h src : Nat) (pre sol : List Nat),
        (Commit.mergeCommits
            ⟨h, src, pre, sol, BLSAgg.single 0⟩
            ⟨h, src, pre, sol, BLSAgg.single 7⟩).validatorMap =
          ({0, 7} : Finset (Fin 128))) ∧
    (∀ a b : Commit BLSAgg,
        (a.mergeCommits b).validatorMap = (b.mergeCommits a).validatorMap) := by
  refine ⟨fun a b => rfl, ?_, ?_⟩
  · intro h src pre sol
    simp only [Commit.mergeCommits, Commit.validatorMap, BLSAgg.merge, BLSAgg.single]
    decide
  · intro a b
    exact Finset.union_comm _ _

/-! ## Pool manager (crates/angstrom-net/src/pool_manager.rs) -/

/-- PEER_ORDER_CACHE_LIMIT (pool_manager.rs line 61). -/
def PEER_ORDER_CACHE_LIMIT : Nat := 1024 * 10

/-- Modelled from the spec: crate::LruCache is a re-export not among the
sources; per spec section 4.6 it holds at most capacity recently-seen
hashes, evicting the least recently used on overflow. -/
structure LruCache where
  capacity : Nat
  entries : List Nat
  deriving Repr, DecidableEq

def LruCache.newCache (cap : Nat) : LruCache := ⟨cap, []⟩

/-- Modelled from the spec: insert makes the hash most recent, removes a
duplicate, and keeps at most capacity entries. -/
def LruCache.insert (c : LruCache) (h : Nat) : LruCache :=
  ⟨c.capacity, (h :: c.entries.erase h).take c.capacity⟩

def LruCache.containsHash (c : LruCache) (h : Nat) : Bool := c.entries.contains h

/-- StromPeer (pool_manager.rs lines 473-478). -/
structure StromPeer where
  orders : LruCache
  deriving Repr, DecidableEq

/-- The peers map of the PoolManager, as an association list with
HashMap insert/remove semantics. -/
def PeersMap : Type := List (Nat × StromPeer)

def peersInsert (ps : PeersMap) (pid : Nat) (p : StromPeer) : PeersMap :=
  (pid, p) :: ps.filter fun q => !(q.1 == pid)

def peersRemove (ps : PeersMap) (pid : Nat) : PeersMap :=
  ps.filter fun q => !(q.1 == pid)

def peersGet (ps : PeersMap) (pid : Nat) : Option StromPeer :=
  (ps.find? fun q => q.1 == pid).map Prod.snd

/-- StromNetworkEvent variants handled by on_network_event
(pool_manager.rs lines 366-393). -/
inductive StromNetworkEvent where
  | SessionEstablished (peerId : Nat)
  | SessionClosed (peerId : Nat)
  | PeerRemoved (peerId : Nat)
  | PeerAdded (peerId : Nat)

/-- on_network_event (pool_manager.rs lines 366-393): establishment and
addition create a peer entry with a fresh cache of capacity
PEER_ORDER_CACHE_LIMIT; close and removal drop the entry. -/
def onNetworkEvent (ps : PeersMap) (e : StromNetworkEvent) : PeersMap :=
  match e with
  | .SessionEstablished pid =>
    peersInsert ps pid ⟨LruCache.newCache PEER_ORDER_CACHE_LIMIT⟩
  | .SessionClosed pid => peersRemove ps pid
  | .PeerRemoved pid => peersRemove ps pid
  | .PeerAdded pid =>
    peersInsert ps pid ⟨LruCache.newCache PEER_ORDER_CACHE_LIMIT⟩

/-- on_network_order_event, IncomingOrders arm (pool_manager.rs lines
343-364), restricted to the peers map it mutates: every incoming order
hash is recorded into the sending peer's cache when that peer is
connected (the indexer call is a separate component). -/
def onIncomingOrders (ps : PeersMap) (peerId : Nat) (orderHashes : List Nat) :
    PeersMap :=
  orderHashes.foldl
    (fun st h =>
      match peersGet st peerId with
      | some p => peersInsert st peerId ⟨p.orders.insert h⟩
      | none => st)
    ps

/-- All peer caches have the configured capacity. -/
def capsOkB (ps : PeersMap) : Bool :=
  ps.all fun q => q.2.orders.capacity == PEER_ORDER_CACHE_LIMIT

theorem capsOkB_filter (ps : PeersMap) (f : Nat × StromPeer → Bool)
    (h : capsOkB ps = true) : capsOkB (ps.filter f) = true := by
  simp only [capsOkB, List.all_eq_true] at h ⊢
  intro q hq
  exact h q (List.mem_of_mem_filter hq)

theorem peersGet_insert (ps : PeersMap) (pid : Nat) (p : StromPeer) :
    peersGet (peersInsert ps pid p) pid = some p := by
  simp [peersGet, peersInsert, List.find?]

theorem peersGet_remove (ps : PeersMap) (pid : Nat) :
    peersGet (peersRemove ps pid) pid = none := by
  simp only [peersGet, peersRemove, Option.map_eq_none]
  induction ps with
  | nil => rfl
  | cons q t ih =>
    cases hq : (q.1 == pid) with
    | false => simpa [List.filter, hq, List.find?] using ih
    | true => simpa [List.filter, hq, List.find?] using ih

theorem capsOkB_insert (ps : PeersMap) (pid : Nat) (p : StromPeer)
    (hps : capsOkB ps = true)
    (hp : p.orders.capacity = PEER_ORDER_CACHE_LIMIT) :
    capsOkB (peersInsert ps pid p) = true := by
  simp only [capsOkB, peersInsert, List.all_cons, Bool.and_eq_true, beq_iff_eq]
  refine ⟨hp, ?_⟩
  exact capsOkB_filter ps _ hps

theorem capsOkB_onNetworkEvent (ps : PeersMap) (e : StromNetworkEvent)
    (h : capsOkB ps = true) : capsOkB (onNetworkEvent ps e) = true := by
  cases e with
  | SessionEstablished pid => exact capsOkB_insert ps pid _ h rfl
  | PeerAdded pid => exact capsOkB_insert ps pid _ h rfl
  | SessionClosed pid => exact capsOkB_filter ps _ h
  | PeerRemoved pid => exact capsOkB_filter ps _ h

theorem capsOkB_get (ps : PeersMap) (pid : Nat) (p : StromPeer)
    (h : capsOkB ps = true) (hg : peersGet ps pid = some p) :
    p.orders.capacity = PEER_ORDER_CACHE_LIMIT := by
  simp only [capsOkB, List.all_eq_true, beq_iff_eq] at h
  unfold peersGet at hg
  rcases hfind : List.find? (fun q => q.1 == pid) ps with _ | q
  · rw [hfind] at hg
    cases hg
  · rw [hfind] at hg
    simp only [Option.map] at hg
    obtain rfl : q.2 = p := Option.some.inj hg
    exact h q (List.mem_of_find?_eq_some hfind)

theorem capsOkB_onIncomingOrders (ps : PeersMap) (pid : Nat) (hs : List Nat)
    (h : capsOkB ps = true) : capsOkB (onIncomingOrders ps pid hs) = true := by
  induction hs generalizing ps with
  | nil => exact h
  | cons x t ih =>
    simp only [onIncomingOrders, List.foldl_cons]
    split
    · next p heq =>
      exact ih _ (capsOkB_insert ps pid _ h (capsOkB_get ps pid p h heq))
    · next heq => exact ih ps h

/-- Claim C7: each per-peer recently-seen cache has capacity exactly
10,240; an entry with a fresh cache of that capacity is created on
session establishment or peer addition and removed on session close or
peer removal; the capacity invariant is preserved by every network event
and every order ingestion; and ingesting an order from a connected peer
records the order hash into that peer's cache. -/
theorem claim_C7 :
    PEER_ORDER_CACHE_LIMIT = 10240 ∧
    (∀ (ps : PeersMap) (pid : Nat),
        peersGet (onNetworkEvent ps (.SessionEstablished pid)) pid =
            some ⟨LruCache.newCache PEER_ORDER_CACHE_LIMIT⟩ ∧
          peersGet (onNetworkEvent ps (.PeerAdded pid)) pid =
            some ⟨LruCache.newCache PEER_ORDER_CACHE_LIMIT⟩) ∧
    (∀ (ps : PeersMap) (pid : Nat),
        peersGet (onNetworkEvent ps (.SessionClosed pid)) pid = none ∧
          peersGet (onNetworkEvent ps (.PeerRemoved pid)) pid = none) ∧
    (∀ (ps : PeersMap) (e : StromNetworkEvent),
        capsOkB ps = true → capsOkB (onNetworkEvent ps e) = true) ∧
    (∀ (ps : PeersMap) (pid : Nat) (hs : List Nat),
        capsOkB ps = true → capsOkB (onIncomingOrders ps pid hs) = true) ∧
    (∀ (ps : PeersMap) (pid : Nat) (p : StromPeer) (h : Nat),
        peersGet ps pid = some p → 1 ≤ p.orders.capacity →
          ∃ p2 : StromPeer,
            peersGet (onIncomingOrders ps pid [h]) pid = some p2 ∧
              p2.orders.containsHash h = true) := by
  refine ⟨rfl, fun ps pid => ⟨peersGet_insert ps pid _, peersGet_insert ps pid _⟩,
    fun ps pid => ⟨peersGet_remove ps pid, peersGet_remove ps pid⟩,
    capsOkB_onNetworkEvent, capsOkB_onIncomingOrders, ?_⟩
  intro ps pid p h hg hcap
  refine ⟨⟨p.orders.insert h⟩, ?_, ?_⟩
  · simp only [onIncomingOrders, List.foldl_cons, hg, List.foldl_nil]
    exact peersGet_insert ps pid _
  · simp only [LruCache.containsHash, LruCache.insert]
    obtain ⟨n, hn⟩ : ∃ n, p.orders.capacity = n + 1 :=
      ⟨p.orders.capacity - 1, by omega⟩
    rw [hn]
    simp [List.take, List.contains_cons]

/-- Witness for C7 at a concrete peer map. -/
theorem claim_C7_witness :
    capsOkB (onNetworkEvent [] (.SessionEstablished 5)) = true ∧
    ∃ p2 : StromPeer,
      peersGet (onIncomingOrders (onNetworkEvent [] (.SessionEstablished 5)) 5 [77]) 5 =
          some p2 ∧
        p2.orders.containsHash 77 = true :=
  ⟨claim_C7.2.2.2.1 [] (.SessionEstablished 5) (by rfl),
   claim_C7.2.2.2.2.2 (onNetworkEvent [] (.SessionEstablished 5)) 5
      ⟨LruCache.newCache PEER_ORDER_CACHE_LIMIT⟩ 77 (by rfl) (by decide)⟩

/-! ## PoolHandle::new_order result mapping -/

/-- OrderValidationResults as matched on by PoolHandle::new_order
(pool_manager.rs lines 105-110). -/
inductive OrderValidationResults (O E : Type) where
  | Valid (o : O)
  | Invalid (e : E)
  | TransitionedToBlock

/-- The closure mapping the oneshot receive result to the RPC boolean in
PoolHandle::new_order (pool_manager.rs lines 105-110); the error case is
a dropped response channel. -/
def newOrderResult {O E : Type} :
    Except Unit (OrderValidationResults O E) → Bool
  | .ok (.Valid _) => true
  | .ok (.Invalid _) => false
  | .ok .TransitionedToBlock => false
  | .error _ => false

/-- Claim C10: the future returned by new_order resolves to true exactly
when the delivered validation result is Valid; Invalid,
TransitionedToBlock and a dropped channel all resolve to false, so the
boolean answer does not distinguish an invalid order from one that must
be resubmitted after a block transition. -/
theorem claim_C10 {O E : Type} :
    (∀ o : O, @newOrderResult O E (.ok (.Valid o)) = true) ∧
    (∀ e : E, @newOrderResult O E (.ok (.Invalid e)) = false) ∧
    @newOrderResult O E (.ok .TransitionedToBlock) = false ∧
    @newOrderResult O E (.error ()) = false ∧
    (∀ r : Except Unit (OrderValidationResults O E),
        newOrderResult r = true ↔ ∃ o : O, r = .ok (.Valid o)) ∧
    (∀ e : E,
        @newOrderResult O E (.ok (.Invalid e)) =
          @newOrderResult O E (.ok .TransitionedToBlock)) := by
  refine ⟨fun o => rfl, fun e => rfl, rfl, rfl, ?_, fun e => rfl⟩
  intro r
  constructor
  · intro h
    match r with
    | .ok (.Valid o) => exact ⟨o, rfl⟩
    | .ok (.Invalid e) => cases h
    | .ok .TransitionedToBlock => cases h
    | .error u => cases h
  · rintro ⟨o, rfl⟩
    rfl

end Angstrom
